import Mathlib

/-!
Verification of the DeepHAM policy-trainer core (`src/policy.py`) against its
natural-language specification.  The numerical code is shallowly embedded over
`ℚ` (idealized exact arithmetic in place of float64); the transcendental float
primitives (`**`, `tf.math.log`, `tf.sigmoid`'s `exp`) and the external
collaborators declared out of scope by the specification (policy / value
networks, dataset provider, normalization statistics, shock simulators) enter
the embedding as opaque function parameters, universally quantified in the
theorems.  `policy_fn`'s sigmoid itself is modelled over `ℝ` where a range
statement is meaningful.
-/

namespace DeepHAM

/-- Clamp margin, `EPSILON = 1e-3` in `policy.py`. -/
def EPSILON : ℚ := 1/1000

/-- TensorFlow's `tf.clip_by_value(t, lo, hi)`: computed as
`maximum(minimum(t, hi), lo)`, so when `lo > hi` the result is `lo`. -/
def clip_by_value (x lo hi : ℚ) : ℚ := max (min x hi) lo

/-- Entry `t` of the precomputed discount vector
`np.power(mparam.beta, np.arange(t_unroll))`. -/
def discount (beta : ℚ) (t : ℕ) : ℚ := beta ^ t

/-- KS variant, line 264: `csmp = tf.clip_by_value(c_share * wealth, EPSILON, wealth-EPSILON)`. -/
def KS_csmp (c_share wealth : ℚ) : ℚ :=
  clip_by_value (c_share * wealth) EPSILON (wealth - EPSILON)

/-- KS variant, line 265: `k_cross = wealth - csmp`. -/
def KS_k_next (c_share wealth : ℚ) : ℚ := wealth - KS_csmp c_share wealth

/-- DavilaAS variant, line 453 (same clamp as KS). -/
def DavilaAS_csmp (c_share wealth : ℚ) : ℚ :=
  clip_by_value (c_share * wealth) EPSILON (wealth - EPSILON)

/-- DavilaAS variant, line 454: `k_cross = wealth - csmp`. -/
def DavilaAS_k_next (c_share wealth : ℚ) : ℚ := wealth - DavilaAS_csmp c_share wealth

/-- JFV variant, line 538:
`csmp = tf.clip_by_value(c_share * wealth / dt, EPSILON, wealth/dt - EPSILON)`. -/
def JFV_csmp (dt c_share wealth : ℚ) : ℚ :=
  clip_by_value (c_share * wealth / dt) EPSILON (wealth / dt - EPSILON)

/-- JFV variant, line 539: `k_cross = wealth - csmp * dt`. -/
def JFV_k_next (dt c_share wealth : ℚ) : ℚ := wealth - JFV_csmp dt c_share wealth * dt

/-- Davila variant, line 363: `csmp = c_share * wealth` (no clipping). -/
def Davila_csmp (c_share wealth : ℚ) : ℚ := c_share * wealth

/-- Davila variant, line 364: `k_cross = wealth - csmp`. -/
def Davila_k_next (c_share wealth : ℚ) : ℚ := wealth - Davila_csmp c_share wealth

/-- ReLU, `tf.keras.activations.relu`. -/
def relu (x : ℚ) : ℚ := max x 0

/-- Mean of a `[n_path, n_agt]` tensor, `tf.reduce_mean` over both axes.
Agent index type is `Fin (n+1)` so that agent 0 always exists. -/
def mean2 {p n : ℕ} (x : Fin p → Fin (n+1) → ℚ) : ℚ :=
  (∑ q, ∑ i, x q i) / ((p : ℚ) * ((n : ℚ) + 1))

/-- Mean of a `[n_path]` tensor. -/
def mean1 {p : ℕ} (x : Fin p → ℚ) : ℚ := (∑ q, x q) / (p : ℚ)

/-- Cross-sectional capital mean `tf.reduce_mean(k_cross, axis=1)`. -/
def k_mean_of {p n : ℕ} (k : Fin p → Fin (n+1) → ℚ) (q : Fin p) : ℚ :=
  (∑ i, k q i) / ((n : ℚ) + 1)

/-- The "game" rewiring of the consumption-share tensor (lines 248-250 etc.):
`c_share = tf.concat([c_share[:, 0:1], tf.stop_gradient(c_share[:, 1:])], axis=1)`.
Following the dual-view semantics of `stop_gradient`, `c` is the
gradient-carrying view of the period's share tensor and `cD` the detached
view; in the forward pass the two coincide.  Under `opt_type = "game"` agent 0
keeps the attached view and every other agent keeps the detached view; under
`"socialplanner"` the tensor is used as-is. -/
def effShare {p n : ℕ} (game : Bool) (c cD : Fin p → Fin (n+1) → ℚ) :
    Fin p → Fin (n+1) → ℚ :=
  if game then (fun q i => if i.val = 0 then c q i else cD q i) else c

/-- Pointwise update of one entry of a per-period share tensor: the
perturbation used to probe the gradient of the loss in one coordinate. -/
def update_share {p n : ℕ} (c : ℕ → Fin p → Fin (n+1) → ℚ) (t0 : ℕ) (q0 : Fin p)
    (i0 : Fin (n+1)) (x : ℚ) : ℕ → Fin p → Fin (n+1) → ℚ :=
  fun t q i => if t = t0 ∧ q = q0 ∧ i = i0 then x else c t q i

/-- Per-path simulation state shared by the KS and DavilaAS recursions. -/
structure PathState (p n : ℕ) where
  k_cross : Fin p → Fin (n+1) → ℚ
  util_sum : Fin p → Fin (n+1) → ℚ

/-- Output dictionary of `loss` for the KS, DavilaAS and JFV variants. -/
structure LossOut where
  m_util : ℚ
  k_end : ℚ
deriving DecidableEq

/-- Output dictionary of the Davila `loss` (adds the gradient-penalty term). -/
structure DavilaLossOut where
  m_util : ℚ
  gp_loss : ℚ
  k_end : ℚ
deriving DecidableEq

/-- Economic constants consumed by the KS recursion.  They live in the
external `mparam` object, so they are data of the embedding. -/
structure KSParam where
  beta : ℚ
  delta : ℚ
  alpha : ℚ
  tau_b : ℚ
  tau_g : ℚ
  l_bar : ℚ
  er_b : ℚ
  er_g : ℚ
  mu : ℚ

/-- One non-terminal period of `KSPolicyTrainer.loss` (lines 226-266), acting
on one period's effective share tensor `sh`, aggregate shock slice `a` and
idiosyncratic shock slice `ish`.  `fpow` stands for the float `**` operator
and `lg` for `tf.math.log`, both opaque primitives here. -/
def KS_step {p n : ℕ} (mp : KSParam) (fpow : ℚ → ℚ → ℚ) (lg : ℚ → ℚ)
    (sh : Fin p → Fin (n+1) → ℚ) (a : Fin p → ℚ) (ish : Fin p → Fin (n+1) → ℚ)
    (t : ℕ) (s : PathState p n) : PathState p n :=
  let k_mean := k_mean_of s.k_cross
  let tau : Fin p → ℚ := fun q => if a q < 1 then mp.tau_b else mp.tau_g
  let emp : Fin p → ℚ := fun q => if a q < 1 then mp.l_bar * mp.er_b else mp.l_bar * mp.er_g
  let R : Fin p → ℚ :=
    fun q => 1 - mp.delta + a q * mp.alpha * fpow (k_mean q / emp q) (mp.alpha - 1)
  let wage : Fin p → ℚ := fun q => a q * (1 - mp.alpha) * fpow (k_mean q / emp q) mp.alpha
  let wealth : Fin p → Fin (n+1) → ℚ := fun q i =>
    R q * s.k_cross q i + (1 - tau q) * wage q * mp.l_bar * ish q i +
      mp.mu * wage q * (1 - ish q i)
  { k_cross := fun q i => KS_k_next (sh q i) (wealth q i),
    util_sum := fun q i =>
      s.util_sum q i + discount mp.beta t * lg (KS_csmp (sh q i) (wealth q i)) }

/-- Terminal period of the KS loss (lines 238-245): the averaged, unnormalized
value-trainer ensemble output replaces further recursion.  `vval` is the
opaque composite `mean_over_ensemble (unnormalize (value_fn (normalize state)))`,
a function of the state tensors that feed `full_state_dict`. -/
def KS_terminal {p n : ℕ} (beta : ℚ)
    (vval : (Fin p → Fin (n+1) → ℚ) → (Fin p → ℚ) → (Fin p → Fin (n+1) → ℚ) →
      Fin p → Fin (n+1) → ℚ)
    (a : Fin p → ℚ) (ish : Fin p → Fin (n+1) → ℚ) (t : ℕ) (s : PathState p n) :
    PathState p n :=
  { k_cross := s.k_cross,
    util_sum := fun q i => s.util_sum q i + discount beta t * vval s.k_cross a ish q i }

/-- Body of the KS loop `for t in range(self.t_unroll)`: the terminal branch
when `t == self.t_unroll - 1`, one `KS_step` otherwise. -/
def KS_iter {p n : ℕ} (mp : KSParam) (fpow : ℚ → ℚ → ℚ) (lg : ℚ → ℚ)
    (vval : (Fin p → Fin (n+1) → ℚ) → (Fin p → ℚ) → (Fin p → Fin (n+1) → ℚ) →
      Fin p → Fin (n+1) → ℚ)
    (T : ℕ) (sh : ℕ → Fin p → Fin (n+1) → ℚ) (ashock : ℕ → Fin p → ℚ)
    (ishock : ℕ → Fin p → Fin (n+1) → ℚ) (s : PathState p n) (t : ℕ) :
    PathState p n :=
  if t = T - 1 then KS_terminal mp.beta vval (ashock t) (ishock t) t s
  else KS_step mp fpow lg (sh t) (ashock t) (ishock t) t s

/-- The unrolled KS recursion with per-period effective shares `sh`. -/
def KS_run {p n : ℕ} (mp : KSParam) (fpow : ℚ → ℚ → ℚ) (lg : ℚ → ℚ)
    (vval : (Fin p → Fin (n+1) → ℚ) → (Fin p → ℚ) → (Fin p → Fin (n+1) → ℚ) →
      Fin p → Fin (n+1) → ℚ)
    (T : ℕ) (sh : ℕ → Fin p → Fin (n+1) → ℚ) (ashock : ℕ → Fin p → ℚ)
    (ishock : ℕ → Fin p → Fin (n+1) → ℚ) (k0 : Fin p → Fin (n+1) → ℚ) :
    PathState p n :=
  (List.range T).foldl (KS_iter mp fpow lg vval T sh ashock ishock) ⟨k0, fun _ _ => 0⟩

/-- `KSPolicyTrainer.loss` output dictionary (lines 268-273).  `c` and `cD`
are the attached and detached views of the per-period consumption-share
outputs of `policy_fn` (equal in the forward pass). -/
def KS_loss {p n : ℕ} (mp : KSParam) (fpow : ℚ → ℚ → ℚ) (lg : ℚ → ℚ)
    (vval : (Fin p → Fin (n+1) → ℚ) → (Fin p → ℚ) → (Fin p → Fin (n+1) → ℚ) →
      Fin p → Fin (n+1) → ℚ)
    (T : ℕ) (game : Bool) (c cD : ℕ → Fin p → Fin (n+1) → ℚ)
    (ashock : ℕ → Fin p → ℚ) (ishock : ℕ → Fin p → Fin (n+1) → ℚ)
    (k0 : Fin p → Fin (n+1) → ℚ) : LossOut :=
  let s := KS_run mp fpow lg vval T (fun t => effShare game (c t) (cD t)) ashock ishock k0
  if game then
    { m_util := -(mean1 (fun q => s.util_sum q 0)), k_end := mean2 s.k_cross }
  else
    { m_util := -(mean2 s.util_sum), k_end := mean2 s.k_cross }

/-- Economic constants consumed by the Davila recursion. -/
structure DavilaParam where
  beta : ℚ
  delta : ℚ
  alpha : ℚ
  emp_g : ℚ
  epsilon_0 : ℚ
  epsilon_1 : ℚ
  epsilon_2 : ℚ

/-- Davila simulation state: capital, running utility, and the accumulated
gradient-penalty tensor. -/
structure DavilaState (p n : ℕ) where
  k_cross : Fin p → Fin (n+1) → ℚ
  util_sum : Fin p → Fin (n+1) → ℚ
  gp : Fin p → Fin (n+1) → ℚ

/-- Three-way idiosyncratic wage weight of the Davila variants
(lines 350-354 / 358-362): `ε₀(1-i)(2-i)/2 + ε₁ i(2-i) + ε₂ i(i-1)/2`. -/
def eps_weight (e0 e1 e2 ish : ℚ) : ℚ :=
  e0 * (1 - ish) * (2 - ish) / 2 + e1 * ish * (2 - ish) + e2 * ish * (ish - 1) / 2

/-- One non-terminal period of `DavilaPolicyTrainer.loss` (lines 318-365).
No clipping is applied to consumption.  `tgrad` is the opaque nested-tape
gradient `tape.gradient(csmp_gp, k_cross)` (it involves the Jacobian of the
external policy network), a function of the period, the capital tensor and
the period's effective shares; `log_10` is the opaque float constant
`tf.math.log(10.0)`. -/
def Davila_step {p n : ℕ} (mp : DavilaParam) (fpow : ℚ → ℚ → ℚ) (log_10 : ℚ)
    (tgrad : ℕ → (Fin p → Fin (n+1) → ℚ) → (Fin p → Fin (n+1) → ℚ) →
      Fin p → Fin (n+1) → ℚ)
    (sh : Fin p → Fin (n+1) → ℚ) (ish : Fin p → Fin (n+1) → ℚ) (t : ℕ)
    (s : DavilaState p n) : DavilaState p n :=
  let k_mean := k_mean_of s.k_cross
  let emp : ℚ := mp.emp_g
  let R : Fin p → ℚ := fun q => 1 - mp.delta + mp.alpha * fpow (k_mean q / emp) (mp.alpha - 1)
  let wage : Fin p → ℚ := fun q => (1 - mp.alpha) * fpow (k_mean q / emp) mp.alpha
  let gradients : Fin p → Fin (n+1) → ℚ :=
    fun q i => tgrad t s.k_cross sh q i * log_10 * s.k_cross q i
  let wealth : Fin p → Fin (n+1) → ℚ :=
    fun q i => R q * s.k_cross q i +
      wage q * eps_weight mp.epsilon_0 mp.epsilon_1 mp.epsilon_2 (ish q i)
  { k_cross := fun q i => Davila_k_next (sh q i) (wealth q i),
    util_sum := fun q i =>
      s.util_sum q i + discount mp.beta t * (1 - 1 / Davila_csmp (sh q i) (wealth q i)),
    gp := fun q i => s.gp q i + relu (-(gradients q i)) }

/-- Terminal period of the Davila loss (lines 334-341); the `continue` skips
the gradient-penalty accumulation at the terminal period. -/
def Davila_terminal {p n : ℕ} (beta : ℚ)
    (vval : (Fin p → Fin (n+1) → ℚ) → (Fin p → Fin (n+1) → ℚ) →
      Fin p → Fin (n+1) → ℚ)
    (ish : Fin p → Fin (n+1) → ℚ) (t : ℕ) (s : DavilaState p n) : DavilaState p n :=
  { k_cross := s.k_cross,
    util_sum := fun q i => s.util_sum q i + discount beta t * vval s.k_cross ish q i,
    gp := s.gp }

/-- Body of the Davila loop. -/
def Davila_iter {p n : ℕ} (mp : DavilaParam) (fpow : ℚ → ℚ → ℚ) (log_10 : ℚ)
    (tgrad : ℕ → (Fin p → Fin (n+1) → ℚ) → (Fin p → Fin (n+1) → ℚ) →
      Fin p → Fin (n+1) → ℚ)
    (vval : (Fin p → Fin (n+1) → ℚ) → (Fin p → Fin (n+1) → ℚ) →
      Fin p → Fin (n+1) → ℚ)
    (T : ℕ) (sh : ℕ → Fin p → Fin (n+1) → ℚ)
    (ishock : ℕ → Fin p → Fin (n+1) → ℚ) (s : DavilaState p n) (t : ℕ) :
    DavilaState p n :=
  if t = T - 1 then Davila_terminal mp.beta vval (ishock t) t s
  else Davila_step mp fpow log_10 tgrad (sh t) (ishock t) t s

/-- The unrolled Davila recursion. -/
def Davila_run {p n : ℕ} (mp : DavilaParam) (fpow : ℚ → ℚ → ℚ) (log_10 : ℚ)
    (tgrad : ℕ → (Fin p → Fin (n+1) → ℚ) → (Fin p → Fin (n+1) → ℚ) →
      Fin p → Fin (n+1) → ℚ)
    (vval : (Fin p → Fin (n+1) → ℚ) → (Fin p → Fin (n+1) → ℚ) →
      Fin p → Fin (n+1) → ℚ)
    (T : ℕ) (sh : ℕ → Fin p → Fin (n+1) → ℚ)
    (ishock : ℕ → Fin p → Fin (n+1) → ℚ) (k0 : Fin p → Fin (n+1) → ℚ) :
    DavilaState p n :=
  (List.range T).foldl (Davila_iter mp fpow log_10 tgrad vval T sh ishock)
    ⟨k0, fun _ _ => 0, fun _ _ => 0⟩

/-- `DavilaPolicyTrainer.loss` output dictionary (lines 367-373). -/
def Davila_loss {p n : ℕ} (mp : DavilaParam) (fpow : ℚ → ℚ → ℚ) (log_10 : ℚ)
    (tgrad : ℕ → (Fin p → Fin (n+1) → ℚ) → (Fin p → Fin (n+1) → ℚ) →
      Fin p → Fin (n+1) → ℚ)
    (vval : (Fin p → Fin (n+1) → ℚ) → (Fin p → Fin (n+1) → ℚ) →
      Fin p → Fin (n+1) → ℚ)
    (T : ℕ) (game : Bool) (c cD : ℕ → Fin p → Fin (n+1) → ℚ)
    (ishock : ℕ → Fin p → Fin (n+1) → ℚ) (k0 : Fin p → Fin (n+1) → ℚ) :
    DavilaLossOut :=
  let s := Davila_run mp fpow log_10 tgrad vval T
    (fun t => effShare game (c t) (cD t)) ishock k0
  if game then
    { m_util := -(mean1 (fun q => s.util_sum q 0)), gp_loss := mean2 s.gp,
      k_end := mean2 s.k_cross }
  else
    { m_util := -(mean2 s.util_sum), gp_loss := mean2 s.gp, k_end := mean2 s.k_cross }

/-- Economic constants consumed by the DavilaAS recursion. -/
structure DavilaASParam where
  beta : ℚ
  delta : ℚ
  alpha : ℚ
  emp_b : ℚ
  emp_g : ℚ
  epsilon_0 : ℚ
  epsilon_1 : ℚ
  epsilon_2 : ℚ

/-- One non-terminal period of `DavilaASPolicyTrainer.loss` (lines 417-455):
KS's regime-dependent prices combined with the Davila idiosyncratic wage
weights, CRRA utility `1 - 1/c` and the `EPSILON` clamp. -/
def DavilaAS_step {p n : ℕ} (mp : DavilaASParam) (fpow : ℚ → ℚ → ℚ)
    (sh : Fin p → Fin (n+1) → ℚ) (a : Fin p → ℚ) (ish : Fin p → Fin (n+1) → ℚ)
    (t : ℕ) (s : PathState p n) : PathState p n :=
  let k_mean := k_mean_of s.k_cross
  let emp : Fin p → ℚ := fun q => if a q < 1 then mp.emp_b else mp.emp_g
  let R : Fin p → ℚ :=
    fun q => 1 - mp.delta + a q * mp.alpha * fpow (k_mean q / emp q) (mp.alpha - 1)
  let wage : Fin p → ℚ := fun q => a q * (1 - mp.alpha) * fpow (k_mean q / emp q) mp.alpha
  let wealth : Fin p → Fin (n+1) → ℚ :=
    fun q i => R q * s.k_cross q i +
      wage q * eps_weight mp.epsilon_0 mp.epsilon_1 mp.epsilon_2 (ish q i)
  { k_cross := fun q i => DavilaAS_k_next (sh q i) (wealth q i),
    util_sum := fun q i =>
      s.util_sum q i + discount mp.beta t * (1 - 1 / DavilaAS_csmp (sh q i) (wealth q i)) }

/-- Terminal period of the DavilaAS loss (lines 430-437). -/
def DavilaAS_terminal {p n : ℕ} (beta : ℚ)
    (vval : (Fin p → Fin (n+1) → ℚ) → (Fin p → ℚ) → (Fin p → Fin (n+1) → ℚ) →
      Fin p → Fin (n+1) → ℚ)
    (a : Fin p → ℚ) (ish : Fin p → Fin (n+1) → ℚ) (t : ℕ) (s : PathState p n) :
    PathState p n :=
  { k_cross := s.k_cross,
    util_sum := fun q i => s.util_sum q i + discount beta t * vval s.k_cross a ish q i }

/-- Body of the DavilaAS loop. -/
def DavilaAS_iter {p n : ℕ} (mp : DavilaASParam) (fpow : ℚ → ℚ → ℚ)
    (vval : (Fin p → Fin (n+1) → ℚ) → (Fin p → ℚ) → (Fin p → Fin (n+1) → ℚ) →
      Fin p → Fin (n+1) → ℚ)
    (T : ℕ) (sh : ℕ → Fin p → Fin (n+1) → ℚ) (ashock : ℕ → Fin p → ℚ)
    (ishock : ℕ → Fin p → Fin (n+1) → ℚ) (s : PathState p n) (t : ℕ) :
    PathState p n :=
  if t = T - 1 then DavilaAS_terminal mp.beta vval (ashock t) (ishock t) t s
  else DavilaAS_step mp fpow (sh t) (ashock t) (ishock t) t s

/-- The unrolled DavilaAS recursion. -/
def DavilaAS_run {p n : ℕ} (mp : DavilaASParam) (fpow : ℚ → ℚ → ℚ)
    (vval : (Fin p → Fin (n+1) → ℚ) → (Fin p → ℚ) → (Fin p → Fin (n+1) → ℚ) →
      Fin p → Fin (n+1) → ℚ)
    (T : ℕ) (sh : ℕ → Fin p → Fin (n+1) → ℚ) (ashock : ℕ → Fin p → ℚ)
    (ishock : ℕ → Fin p → Fin (n+1) → ℚ) (k0 : Fin p → Fin (n+1) → ℚ) :
    PathState p n :=
  (List.range T).foldl (DavilaAS_iter mp fpow vval T sh ashock ishock) ⟨k0, fun _ _ => 0⟩

/-- `DavilaASPolicyTrainer.loss` output dictionary (lines 457-462). -/
def DavilaAS_loss {p n : ℕ} (mp : DavilaASParam) (fpow : ℚ → ℚ → ℚ)
    (vval : (Fin p → Fin (n+1) → ℚ) → (Fin p → ℚ) → (Fin p → Fin (n+1) → ℚ) →
      Fin p → Fin (n+1) → ℚ)
    (T : ℕ) (game : Bool) (c cD : ℕ → Fin p → Fin (n+1) → ℚ)
    (ashock : ℕ → Fin p → ℚ) (ishock : ℕ → Fin p → Fin (n+1) → ℚ)
    (k0 : Fin p → Fin (n+1) → ℚ) : LossOut :=
  let s := DavilaAS_run mp fpow vval T (fun t => effShare game (c t) (cD t)) ashock ishock k0
  if game then
    { m_util := -(mean1 (fun q => s.util_sum q 0)), k_end := mean2 s.k_cross }
  else
    { m_util := -(mean2 s.util_sum), k_end := mean2 s.k_cross }

/-- Economic constants consumed by the JFV recursion. -/
structure JFVParam where
  beta : ℚ
  delta : ℚ
  alpha : ℚ
  sigma2 : ℚ
  z1 : ℚ
  z2 : ℚ
  dt : ℚ
  rhohat : ℚ

/-- JFV simulation state: capital, the aggregate continuation variable `N`,
and the running utility. -/
structure JFVState (p n : ℕ) where
  k_cross : Fin p → Fin (n+1) → ℚ
  N : Fin p → ℚ
  util_sum : Fin p → Fin (n+1) → ℚ

/-- One non-terminal period of `JFVPolicyTrainer.loss` (lines 506-544):
Euler step of the continuous-time dynamics, `EPSILON` clamp on the flow
consumption rate, and the `tf.maximum(..., 0.01)` floor on `N`. -/
def JFV_step {p n : ℕ} (mp : JFVParam) (fpow : ℚ → ℚ → ℚ)
    (sh : Fin p → Fin (n+1) → ℚ) (a : Fin p → ℚ) (ish : Fin p → Fin (n+1) → ℚ)
    (t : ℕ) (s : JFVState p n) : JFVState p n :=
  let k_mean := k_mean_of s.k_cross
  let K : Fin p → ℚ := fun q => s.N q + k_mean q
  let wage_unit : Fin p → ℚ := fun q => (1 - mp.alpha) * fpow (K q) mp.alpha
  let r : Fin p → ℚ :=
    fun q => mp.alpha * fpow (K q) (mp.alpha - 1) - mp.delta - mp.sigma2 * K q / s.N q
  let wage : Fin p → Fin (n+1) → ℚ :=
    fun q i => (ish q i * (mp.z2 - mp.z1) + mp.z1) * wage_unit q
  let wealth : Fin p → Fin (n+1) → ℚ :=
    fun q i => (1 + r q * mp.dt) * s.k_cross q i + wage q i * mp.dt
  let dN_drift : Fin p → ℚ := fun q =>
    mp.dt * (mp.alpha * fpow (K q) (mp.alpha - 1) - mp.delta - mp.rhohat -
      mp.sigma2 * (-(k_mean q) / s.N q) * (K q / s.N q)) * s.N q
  let dN_diff : Fin p → ℚ := fun q => K q * a q
  { k_cross := fun q i => JFV_k_next mp.dt (sh q i) (wealth q i),
    N := fun q => max (s.N q + dN_drift q + dN_diff q) (1/100),
    util_sum := fun q i =>
      s.util_sum q i + discount mp.beta t * (1 - 1 / JFV_csmp mp.dt (sh q i) (wealth q i)) }

/-- Terminal period of the JFV loss (lines 519-526): the running utility sum
is rescaled by `dt` once and the averaged terminal value is added. -/
def JFV_terminal {p n : ℕ} (mp : JFVParam)
    (vval : (Fin p → Fin (n+1) → ℚ) → (Fin p → ℚ) → (Fin p → Fin (n+1) → ℚ) →
      Fin p → Fin (n+1) → ℚ)
    (ish : Fin p → Fin (n+1) → ℚ) (t : ℕ) (s : JFVState p n) : JFVState p n :=
  { k_cross := s.k_cross,
    N := s.N,
    util_sum := fun q i =>
      s.util_sum q i * mp.dt + discount mp.beta t * vval s.k_cross s.N ish q i }

/-- Body of the JFV loop. -/
def JFV_iter {p n : ℕ} (mp : JFVParam) (fpow : ℚ → ℚ → ℚ)
    (vval : (Fin p → Fin (n+1) → ℚ) → (Fin p → ℚ) → (Fin p → Fin (n+1) → ℚ) →
      Fin p → Fin (n+1) → ℚ)
    (T : ℕ) (sh : ℕ → Fin p → Fin (n+1) → ℚ) (ashock : ℕ → Fin p → ℚ)
    (ishock : ℕ → Fin p → Fin (n+1) → ℚ) (s : JFVState p n) (t : ℕ) :
    JFVState p n :=
  if t = T - 1 then JFV_terminal mp vval (ishock t) t s
  else JFV_step mp fpow (sh t) (ashock t) (ishock t) t s

/-- The unrolled JFV recursion. -/
def JFV_run {p n : ℕ} (mp : JFVParam) (fpow : ℚ → ℚ → ℚ)
    (vval : (Fin p → Fin (n+1) → ℚ) → (Fin p → ℚ) → (Fin p → Fin (n+1) → ℚ) →
      Fin p → Fin (n+1) → ℚ)
    (T : ℕ) (sh : ℕ → Fin p → Fin (n+1) → ℚ) (ashock : ℕ → Fin p → ℚ)
    (ishock : ℕ → Fin p → Fin (n+1) → ℚ) (k0 : Fin p → Fin (n+1) → ℚ)
    (N0 : Fin p → ℚ) : JFVState p n :=
  (List.range T).foldl (JFV_iter mp fpow vval T sh ashock ishock) ⟨k0, N0, fun _ _ => 0⟩

/-- `JFVPolicyTrainer.loss` output dictionary (lines 546-551). -/
def JFV_loss {p n : ℕ} (mp : JFVParam) (fpow : ℚ → ℚ → ℚ)
    (vval : (Fin p → Fin (n+1) → ℚ) → (Fin p → ℚ) → (Fin p → Fin (n+1) → ℚ) →
      Fin p → Fin (n+1) → ℚ)
    (T : ℕ) (game : Bool) (c cD : ℕ → Fin p → Fin (n+1) → ℚ)
    (ashock : ℕ → Fin p → ℚ) (ishock : ℕ → Fin p → Fin (n+1) → ℚ)
    (k0 : Fin p → Fin (n+1) → ℚ) (N0 : Fin p → ℚ) : LossOut :=
  let s := JFV_run mp fpow vval T (fun t => effShare game (c t) (cD t)) ashock ishock k0 N0
  if game then
    { m_util := -(mean1 (fun q => s.util_sum q 0)), k_end := mean2 s.k_cross }
  else
    { m_util := -(mean2 s.util_sum), k_end := mean2 s.k_cross }

/-- Spec-side counterpart of `JFV_step` for the refinement claim: identical
transition, but each period's utility is scaled by `dt` as it is accumulated
("per-period utility scaled by dt"). -/
def JFV_step_dtEach {p n : ℕ} (mp : JFVParam) (fpow : ℚ → ℚ → ℚ)
    (sh : Fin p → Fin (n+1) → ℚ) (a : Fin p → ℚ) (ish : Fin p → Fin (n+1) → ℚ)
    (t : ℕ) (s : JFVState p n) : JFVState p n :=
  let k_mean := k_mean_of s.k_cross
  let K : Fin p → ℚ := fun q => s.N q + k_mean q
  let wage_unit : Fin p → ℚ := fun q => (1 - mp.alpha) * fpow (K q) mp.alpha
  let r : Fin p → ℚ :=
    fun q => mp.alpha * fpow (K q) (mp.alpha - 1) - mp.delta - mp.sigma2 * K q / s.N q
  let wage : Fin p → Fin (n+1) → ℚ :=
    fun q i => (ish q i * (mp.z2 - mp.z1) + mp.z1) * wage_unit q
  let wealth : Fin p → Fin (n+1) → ℚ :=
    fun q i => (1 + r q * mp.dt) * s.k_cross q i + wage q i * mp.dt
  let dN_drift : Fin p → ℚ := fun q =>
    mp.dt * (mp.alpha * fpow (K q) (mp.alpha - 1) - mp.delta - mp.rhohat -
      mp.sigma2 * (-(k_mean q) / s.N q) * (K q / s.N q)) * s.N q
  let dN_diff : Fin p → ℚ := fun q => K q * a q
  { k_cross := fun q i => JFV_k_next mp.dt (sh q i) (wealth q i),
    N := fun q => max (s.N q + dN_drift q + dN_diff q) (1/100),
    util_sum := fun q i =>
      s.util_sum q i + mp.dt * (discount mp.beta t * (1 - 1 / JFV_csmp mp.dt (sh q i) (wealth q i))) }

/-- Spec-side counterpart of `JFV_terminal`: the discounted averaged terminal
value is added to the (already per-period `dt`-scaled) running sum without the
one-shot `dt` rescaling. -/
def JFV_terminal_dtEach {p n : ℕ} (mp : JFVParam)
    (vval : (Fin p → Fin (n+1) → ℚ) → (Fin p → ℚ) → (Fin p → Fin (n+1) → ℚ) →
      Fin p → Fin (n+1) → ℚ)
    (ish : Fin p → Fin (n+1) → ℚ) (t : ℕ) (s : JFVState p n) : JFVState p n :=
  { k_cross := s.k_cross,
    N := s.N,
    util_sum := fun q i =>
      s.util_sum q i + discount mp.beta t * vval s.k_cross s.N ish q i }

/-- Body of the spec-side JFV loop. -/
def JFV_iter_dtEach {p n : ℕ} (mp : JFVParam) (fpow : ℚ → ℚ → ℚ)
    (vval : (Fin p → Fin (n+1) → ℚ) → (Fin p → ℚ) → (Fin p → Fin (n+1) → ℚ) →
      Fin p → Fin (n+1) → ℚ)
    (T : ℕ) (sh : ℕ → Fin p → Fin (n+1) → ℚ) (ashock : ℕ → Fin p → ℚ)
    (ishock : ℕ → Fin p → Fin (n+1) → ℚ) (s : JFVState p n) (t : ℕ) :
    JFVState p n :=
  if t = T - 1 then JFV_terminal_dtEach mp vval (ishock t) t s
  else JFV_step_dtEach mp fpow (sh t) (ashock t) (ishock t) t s

/-- Spec-side counterpart of `JFV_run`. -/
def JFV_run_dtEach {p n : ℕ} (mp : JFVParam) (fpow : ℚ → ℚ → ℚ)
    (vval : (Fin p → Fin (n+1) → ℚ) → (Fin p → ℚ) → (Fin p → Fin (n+1) → ℚ) →
      Fin p → Fin (n+1) → ℚ)
    (T : ℕ) (sh : ℕ → Fin p → Fin (n+1) → ℚ) (ashock : ℕ → Fin p → ℚ)
    (ishock : ℕ → Fin p → Fin (n+1) → ℚ) (k0 : Fin p → Fin (n+1) → ℚ)
    (N0 : Fin p → ℚ) : JFVState p n :=
  (List.range T).foldl (JFV_iter_dtEach mp fpow vval T sh ashock ishock)
    ⟨k0, N0, fun _ _ => 0⟩

/-- Spec-side counterpart of `JFV_loss`, accumulating `dt·β^t·(1 - 1/c_t)`
period by period. -/
def JFV_loss_dtEach {p n : ℕ} (mp : JFVParam) (fpow : ℚ → ℚ → ℚ)
    (vval : (Fin p → Fin (n+1) → ℚ) → (Fin p → ℚ) → (Fin p → Fin (n+1) → ℚ) →
      Fin p → Fin (n+1) → ℚ)
    (T : ℕ) (game : Bool) (c cD : ℕ → Fin p → Fin (n+1) → ℚ)
    (ashock : ℕ → Fin p → ℚ) (ishock : ℕ → Fin p → Fin (n+1) → ℚ)
    (k0 : Fin p → Fin (n+1) → ℚ) (N0 : Fin p → ℚ) : LossOut :=
  let s := JFV_run_dtEach mp fpow vval T (fun t => effShare game (c t) (cD t)) ashock ishock k0 N0
  if game then
    { m_util := -(mean1 (fun q => s.util_sum q 0)), k_end := mean2 s.k_cross }
  else
    { m_util := -(mean2 s.util_sum), k_end := mean2 s.k_cross }

/-- The policy dataset object as seen by `sampler`: the epoch-usage counter
plus an abstract payload (buffer, normalization statistics — external). -/
structure PolicyDataset (B : Type) where
  epoch_used : ℕ
  data : B

/-- `PolicyTrainer.sampler` (lines 191-199): draw the next batch, draw a fresh
shock path for it, and, when the observed `epoch_used` counter strictly
exceeds `epoch_resample`, invoke `update_policydataset` once before returning.
`next_batch` and `simul_shocks` are the opaque external collaborators;
`update_pds` models the effect of `self.update_policydataset` on
`self.policy_ds`.  The result carries the new `policy_ds`, the returned
`train_data` (batch plus `ashock`/`ishock`), and the number of dataset
regenerations invoked during the call. -/
def sampler {B D S : Type} (next_batch : PolicyDataset B → ℕ → PolicyDataset B × D)
    (simul_shocks : ℕ → ℕ → D → S × S)
    (update_pds : PolicyDataset B → PolicyDataset B)
    (t_unroll epoch_resample : ℕ) (pds : PolicyDataset B) (batch_size : ℕ) :
    PolicyDataset B × (D × S × S) × ℕ :=
  let pb := next_batch pds batch_size
  let sha := simul_shocks batch_size t_unroll pb.2
  if epoch_resample < pb.1.epoch_used then (update_pds pb.1, (pb.2, sha.1, sha.2), 1)
  else (pb.1, (pb.2, sha.1, sha.2), 0)

/-- Observable events of one run of `PolicyTrainer.train`, indexed by the
global step `n_step = n*freq_valid + step` (or the epoch index for the
validation log). -/
inductive TrainEvent where
  | sample : ℕ → TrainEvent
  | gradStep : ℕ → TrainEvent
  | retrainValue : ℕ → TrainEvent
  | validLoss : ℕ → TrainEvent
deriving DecidableEq

/-- The value-retraining condition of line 158:
`self.value_sampling != "bchmk" and n_step % freq_update_v == 0 and n_step > 0`. -/
def retrain_trigger (value_sampling : String) (freq_update_v n_step : ℕ) : Bool :=
  (!(value_sampling == "bchmk")) && (n_step % freq_update_v == 0) && (!(n_step == 0))

/-- Events of one inner training step (lines 155-166): batch sampling, one
gradient step, then possibly one value-trainer retraining pass. -/
def step_events (value_sampling : String) (freq_update_v m : ℕ) : List TrainEvent :=
  [TrainEvent.sample m, TrainEvent.gradStep m] ++
    (if retrain_trigger value_sampling freq_update_v m then [TrainEvent.retrainValue m] else [])

/-- The event trace of the training loop of `PolicyTrainer.train`
(lines 149-180): `num_step // freq_valid` epochs of `freq_valid` steps each,
followed by one validation-loss evaluation per epoch. -/
def train_trace (value_sampling : String) (freq_update_v freq_valid num_step : ℕ) :
    List TrainEvent :=
  (List.range (num_step / freq_valid)).flatMap (fun e =>
    ((List.range freq_valid).flatMap
      (fun s => step_events value_sampling freq_update_v (e * freq_valid + s))) ++
      [TrainEvent.validLoss e])

/-- `PolicyTrainer.train` (lines 126-180): after building the learning-rate
schedule, `assert batch_size <= self.valid_size` runs before the optimizer is
created and before any step of the loop; a violated precondition aborts with
an `AssertionError` (modelled as `Except.error`) and no training event at all
is produced. -/
def train (valid_size : ℕ) (value_sampling : String)
    (freq_update_v freq_valid num_step batch_size : ℕ) :
    Except String (List TrainEvent) :=
  if batch_size ≤ valid_size then
    Except.ok (train_trace value_sampling freq_update_v freq_valid num_step)
  else Except.error "The valid size should be no smaller than batch_size."

/-- `tf.sigmoid` over idealized real arithmetic. -/
noncomputable def sigmoid (x : ℝ) : ℝ := 1 / (1 + Real.exp (-x))

/-- `PolicyTrainer.policy_fn` (lines 88-92):
`policy = tf.sigmoid(self.sgm_scale * self.model(state))`.  The composite of
`prepare_state` and the feedforward network is the opaque real-valued
function `model`. -/
noncomputable def policy_fn {S : Type} (sgm_scale : ℝ) (model : S → ℝ) (input_data : S) : ℝ :=
  sigmoid (sgm_scale * model input_data)

/-- Helper: the clamp keeps its value in `[EPSILON, hi]` as soon as
`EPSILON ≤ hi`. -/
theorem clip_mem (x hi : ℚ) (h : EPSILON ≤ hi) :
    EPSILON ≤ clip_by_value x EPSILON hi ∧ clip_by_value x EPSILON hi ≤ hi := by
  constructor
  · exact le_max_right _ _
  · exact max_le (le_trans (min_le_right _ _) le_rfl) h

/-- Helper: the clamp is never below `EPSILON`, whatever the upper bound. -/
theorem clip_ge_eps (x hi : ℚ) : EPSILON ≤ clip_by_value x EPSILON hi :=
  le_max_right _ _

/-! Concrete instances used by counterexamples and witnesses: one path
(`Fin 1`), two agents (`Fin 2`), horizon 2, simple parameter values and
trivial instantiations of the opaque external collaborators. -/

/-- Concrete KS parameters: `beta = 1`, everything that feeds prices set so
that `R = 1` and `wage = 0` under `fpowZero`. -/
def mpKS1 : KSParam := ⟨1, 0, 0, 0, 0, 1, 1, 1, 0⟩

/-- Concrete opaque power primitive returning `0`. -/
def fpowZero : ℚ → ℚ → ℚ := fun _ _ => 0

/-- Concrete opaque power primitive returning `1`. -/
def fpowOne : ℚ → ℚ → ℚ := fun _ _ => 1

/-- Concrete opaque log primitive returning `0`. -/
def lgZero : ℚ → ℚ := fun _ => 0

/-- Concrete value-ensemble output (identically zero), KS/JFV shape. -/
def vvalKS0 : (Fin 1 → Fin 2 → ℚ) → (Fin 1 → ℚ) → (Fin 1 → Fin 2 → ℚ) → Fin 1 → Fin 2 → ℚ :=
  fun _ _ _ _ _ => 0

/-- Concrete value-ensemble output (identically zero), Davila shape. -/
def vvalD0 : (Fin 1 → Fin 2 → ℚ) → (Fin 1 → Fin 2 → ℚ) → Fin 1 → Fin 2 → ℚ :=
  fun _ _ _ _ => 0

/-- Constant consumption-share outputs of one half. -/
def shHalf : ℕ → Fin 1 → Fin 2 → ℚ := fun _ _ _ => 1/2

/-- Constant aggregate shock path equal to one. -/
def aOne : ℕ → Fin 1 → ℚ := fun _ _ => 1

/-- Idiosyncratic shock path identically zero. -/
def ishZero : ℕ → Fin 1 → Fin 2 → ℚ := fun _ _ _ => 0

/-- Tiny positive initial capital, `1/2000 < EPSILON`. -/
def kTiny : Fin 1 → Fin 2 → ℚ := fun _ _ => 1/2000

/-- Unit initial capital. -/
def kOne : Fin 1 → Fin 2 → ℚ := fun _ _ => 1

/-- Concrete DavilaAS parameters: `beta = 1`, `alpha = 0`, `emp = 1`,
`epsilon_0 = 1`, so that under `fpowOne` and `ashock = 1` wealth is `k + 1`. -/
def mpAS1 : DavilaASParam := ⟨1, 0, 0, 1, 1, 1, 0, 0⟩

/-- Concrete JFV parameters with `dt = 1`. -/
def mpJFV1 : JFVParam := ⟨1, 0, 0, 0, 1, 1, 1, 0⟩

/-- C1, as stated, is false: with positive wealth `w = 1/2000 < 2·EPSILON`
the clamp bounds `[EPSILON, w - EPSILON]` are vacuous (`tf.clip_by_value`
returns the lower bound when the bounds cross), post-clamp consumption
exceeds `w - EPSILON`, and next-period capital `w - EPSILON = -1/2000` is
negative; the same happens inside the full KS loss recursion started from a
positive-wealth batch (`k_end < 0`). -/
theorem C1_counterexample :
    (0 : ℚ) < 1/2000 ∧
    ¬(EPSILON ≤ KS_csmp (1/2) (1/2000) ∧ KS_csmp (1/2) (1/2000) ≤ 1/2000 - EPSILON ∧
      EPSILON ≤ KS_k_next (1/2) (1/2000) ∧ 0 ≤ KS_k_next (1/2) (1/2000)) ∧
    (KS_loss mpKS1 fpowZero lgZero vvalKS0 2 false shHalf shHalf aOne ishZero kTiny).k_end < 0 := by
  have hc : KS_csmp (1/2) (1/2000) = EPSILON := by
    norm_num [KS_csmp, clip_by_value, EPSILON, min_def, max_def]
  refine ⟨by norm_num, ?_, ?_⟩
  · intro h
    have h2 := h.2.1
    rw [hc] at h2
    norm_num [EPSILON] at h2
  · norm_num [KS_loss, KS_run, KS_iter, KS_step, KS_terminal, KS_csmp, KS_k_next, clip_by_value,
      discount, mean1, mean2, k_mean_of, effShare, mpKS1, fpowZero, lgZero, vvalKS0, shHalf, aOne,
      ishZero, kTiny, List.range_succ, Fin.sum_univ_two, Fin.sum_univ_one, EPSILON, min_def, max_def]

/-- C1 (amended): the clamp bounds hold at every non-terminal period provided
wealth is at least `2·EPSILON` (JFV: `wealth ≥ 2·EPSILON·dt` with `dt > 0`);
then post-clamp consumption lies in `[EPSILON, wealth - EPSILON]`
(JFV: `[EPSILON, wealth/dt - EPSILON]`) and next-period capital
`wealth - csmp` (JFV: `wealth - csmp·dt`) is at least `EPSILON`
(JFV: `EPSILON·dt`) and hence nonnegative. -/
theorem C1_clamp_bounds :
    (∀ c w : ℚ, 2 * EPSILON ≤ w →
      (EPSILON ≤ KS_csmp c w ∧ KS_csmp c w ≤ w - EPSILON ∧
        EPSILON ≤ KS_k_next c w ∧ 0 ≤ KS_k_next c w) ∧
      (EPSILON ≤ DavilaAS_csmp c w ∧ DavilaAS_csmp c w ≤ w - EPSILON ∧
        EPSILON ≤ DavilaAS_k_next c w ∧ 0 ≤ DavilaAS_k_next c w)) ∧
    (∀ dt c w : ℚ, 0 < dt → 2 * EPSILON * dt ≤ w →
      EPSILON ≤ JFV_csmp dt c w ∧ JFV_csmp dt c w ≤ w / dt - EPSILON ∧
      EPSILON * dt ≤ JFV_k_next dt c w ∧ 0 ≤ JFV_k_next dt c w) := by
  have heps : (0 : ℚ) < EPSILON := by norm_num [EPSILON]
  constructor
  · intro c w h
    have hle : EPSILON ≤ w - EPSILON := by linarith
    obtain ⟨h1, h2⟩ := clip_mem (c * w) (w - EPSILON) hle
    simp only [KS_csmp, DavilaAS_csmp, KS_k_next, DavilaAS_k_next]
    exact ⟨⟨h1, h2, by linarith, by linarith⟩, ⟨h1, h2, by linarith, by linarith⟩⟩
  · intro dt c w hdt h
    have hwdt : 2 * EPSILON ≤ w / dt := (le_div_iff₀ hdt).mpr (by linarith)
    have hle : EPSILON ≤ w / dt - EPSILON := by linarith
    obtain ⟨h1, h2⟩ := clip_mem (c * w / dt) (w / dt - EPSILON) hle
    have hw : w / dt * dt = w := div_mul_cancel₀ w (ne_of_gt hdt)
    have h3 : clip_by_value (c * w / dt) EPSILON (w / dt - EPSILON) * dt ≤
        (w / dt - EPSILON) * dt := mul_le_mul_of_nonneg_right h2 hdt.le
    have h4 : (w / dt - EPSILON) * dt = w - EPSILON * dt := by rw [sub_mul, hw]
    have h5 : 0 < EPSILON * dt := mul_pos heps hdt
    simp only [JFV_csmp, JFV_k_next]
    exact ⟨h1, h2, by linarith, by linarith⟩

/-- Witness for `C1_clamp_bounds` at `c = 1/2`, `w = 1`, `dt = 1`. -/
theorem C1_clamp_bounds_witness :
    ((EPSILON ≤ KS_csmp (1/2) 1 ∧ KS_csmp (1/2) 1 ≤ 1 - EPSILON ∧
      EPSILON ≤ KS_k_next (1/2) 1 ∧ 0 ≤ KS_k_next (1/2) 1) ∧
     (EPSILON ≤ DavilaAS_csmp (1/2) 1 ∧ DavilaAS_csmp (1/2) 1 ≤ 1 - EPSILON ∧
      EPSILON ≤ DavilaAS_k_next (1/2) 1 ∧ 0 ≤ DavilaAS_k_next (1/2) 1)) ∧
    (EPSILON ≤ JFV_csmp 1 (1/2) 1 ∧ JFV_csmp 1 (1/2) 1 ≤ 1 / 1 - EPSILON ∧
      EPSILON * 1 ≤ JFV_k_next 1 (1/2) 1 ∧ 0 ≤ JFV_k_next 1 (1/2) 1) :=
  ⟨C1_clamp_bounds.1 (1/2) 1 (by norm_num [EPSILON]),
   C1_clamp_bounds.2 1 (1/2) 1 (by norm_num) (by norm_num [EPSILON])⟩

/-- C2, as stated, is false: the Davila variant applies no clipping at all,
so with share `1/2000 ∈ (0,1)` and wealth `1` its consumption `1/2000` is
not kept an `EPSILON` margin inside `(0, wealth)`. -/
theorem C2_counterexample :
    ((0 : ℚ) < 1/2000 ∧ (1/2000 : ℚ) < 1 ∧ (0 : ℚ) < 1) ∧
    ¬(EPSILON ≤ Davila_csmp (1/2000) 1 ∧ Davila_csmp (1/2000) 1 ≤ 1 - EPSILON) := by
  refine ⟨by norm_num, ?_⟩
  intro h
  have h1 := h.1
  norm_num [Davila_csmp, EPSILON] at h1

/-- C2 (amended): KS, DavilaAS and JFV clip consumption with margin
`EPSILON`, so their post-clamp consumption is at least `EPSILON > 0`
unconditionally, and their next-period capital is positive whenever
`wealth ≥ 2·EPSILON`; the Davila variant applies no clipping at all, but its
consumption `c_share · wealth` lies strictly inside `(0, wealth)` and the
next-period capital is positive whenever the share lies in `(0,1)` and
wealth is positive. -/
theorem C2_consumption_invariant :
    (∀ c w : ℚ, 0 < KS_csmp c w ∧ 0 < DavilaAS_csmp c w) ∧
    (∀ dt c w : ℚ, 0 < JFV_csmp dt c w) ∧
    (∀ c w : ℚ, 2 * EPSILON ≤ w → 0 < KS_k_next c w ∧ 0 < DavilaAS_k_next c w) ∧
    (∀ c w : ℚ, 0 < c → c < 1 → 0 < w →
      0 < Davila_csmp c w ∧ Davila_csmp c w < w ∧ 0 < Davila_k_next c w) := by
  have heps : (0 : ℚ) < EPSILON := by norm_num [EPSILON]
  refine ⟨fun c w => ⟨?_, ?_⟩, fun dt c w => ?_, fun c w h => ?_, fun c w hc hc1 hw => ?_⟩
  · exact lt_of_lt_of_le heps (clip_ge_eps _ _)
  · exact lt_of_lt_of_le heps (clip_ge_eps _ _)
  · exact lt_of_lt_of_le heps (clip_ge_eps _ _)
  · have hle : EPSILON ≤ w - EPSILON := by linarith
    obtain ⟨h1, h2⟩ := clip_mem (c * w) (w - EPSILON) hle
    constructor <;> simp only [KS_k_next, DavilaAS_k_next] <;>
      simp only [KS_csmp, DavilaAS_csmp] at h2 ⊢ <;> linarith
  · have hpos : 0 < (1 - c) * w := mul_pos (by linarith) hw
    have hmul : 0 < c * w := mul_pos hc hw
    refine ⟨hmul, ?_, ?_⟩ <;> simp only [Davila_csmp, Davila_k_next] <;> nlinarith

/-- Witness for `C2_consumption_invariant` at concrete inputs. -/
theorem C2_consumption_invariant_witness :
    (0 < KS_k_next (1/2) 1 ∧ 0 < DavilaAS_k_next (1/2) 1) ∧
    (0 < Davila_csmp (1/2) 1 ∧ Davila_csmp (1/2) 1 < 1 ∧ 0 < Davila_k_next (1/2) 1) :=
  ⟨C2_consumption_invariant.2.2.1 (1/2) 1 (by norm_num [EPSILON]),
   C2_consumption_invariant.2.2.2 (1/2) 1 (by norm_num) (by norm_num) (by norm_num)⟩

/-- C10: the Davila recursion applies no clipping; next-period capital is
`(1 - c_share)·wealth`, strictly positive whenever wealth is positive and
the share lies in `(0,1)` (which `policy_fn`'s sigmoid guarantees), and
consumption can come within any positive distance of `0` and of `wealth`
while staying admissible, so no `EPSILON` margin is enforced. -/
theorem C10_davila_unclipped :
    (∀ c w : ℚ, 0 < w → 0 < c → c < 1 →
      Davila_k_next c w = (1 - c) * w ∧ 0 < Davila_k_next c w ∧
      0 < Davila_csmp c w ∧ Davila_csmp c w < w) ∧
    (∀ w d : ℚ, 0 < w → 0 < d →
      ∃ c, 0 < c ∧ c < 1 ∧ Davila_csmp c w < d) ∧
    (∀ w d : ℚ, 0 < w → 0 < d →
      ∃ c, 0 < c ∧ c < 1 ∧ w - Davila_csmp c w < d) := by
  refine ⟨fun c w hw hc hc1 => ?_, fun w d hw hd => ?_, fun w d hw hd => ?_⟩
  · have hpos : 0 < (1 - c) * w := mul_pos (by linarith) hw
    have hmul : 0 < c * w := mul_pos hc hw
    refine ⟨by simp only [Davila_k_next, Davila_csmp]; ring, ?_, hmul, ?_⟩ <;>
      simp only [Davila_k_next, Davila_csmp] <;> nlinarith
  · refine ⟨min (1/2) (d / (2 * w)), lt_min (by norm_num) (div_pos hd (by linarith)), ?_, ?_⟩
    · exact lt_of_le_of_lt (min_le_left _ _) (by norm_num)
    · have h1 : min (1/2) (d / (2 * w)) * w ≤ d / (2 * w) * w :=
        mul_le_mul_of_nonneg_right (min_le_right _ _) hw.le
      have h2 : d / (2 * w) * w = d / 2 := by field_simp; ring
      simp only [Davila_csmp]
      linarith
  · refine ⟨max (1/2) (1 - d / (2 * w)), lt_of_lt_of_le (by norm_num) (le_max_left _ _), ?_, ?_⟩
    · exact max_lt (by norm_num) (by linarith [div_pos hd (show (0:ℚ) < 2 * w by linarith)])
    · have hge : 1 - d / (2 * w) ≤ max (1/2) (1 - d / (2 * w)) := le_max_right _ _
      have h1 : (1 - max (1/2) (1 - d / (2 * w))) * w ≤ d / (2 * w) * w :=
        mul_le_mul_of_nonneg_right (by linarith) hw.le
      have h2 : d / (2 * w) * w = d / 2 := by field_simp; ring
      simp only [Davila_csmp]
      nlinarith
/-- Witness for `C10_davila_unclipped` at `c = 1/2`, `w = 1`, `d = 1/10^6`. -/
theorem C10_davila_unclipped_witness :
    (Davila_k_next (1/2) 1 = (1 - 1/2) * 1 ∧ 0 < Davila_k_next (1/2) 1 ∧
      0 < Davila_csmp (1/2) 1 ∧ Davila_csmp (1/2) 1 < 1) ∧
    (∃ c, 0 < c ∧ c < 1 ∧ Davila_csmp c 1 < 1/1000000) ∧
    (∃ c, 0 < c ∧ c < 1 ∧ 1 - Davila_csmp c 1 < 1/1000000) :=
  ⟨C10_davila_unclipped.1 (1/2) 1 (by norm_num) (by norm_num) (by norm_num),
   C10_davila_unclipped.2.1 1 (1/1000000) (by norm_num) (by norm_num),
   C10_davila_unclipped.2.2 1 (1/1000000) (by norm_num) (by norm_num)⟩

/-- C7: `policy_fn` returns a value strictly between 0 and 1 for every
(finite) real network output, since the scaled sigmoid of a real number lies
in the open unit interval. -/
theorem C7_policy_fn_range {S : Type} :
    ∀ (sgm_scale : ℝ) (model : S → ℝ) (input_data : S),
      0 < policy_fn sgm_scale model input_data ∧ policy_fn sgm_scale model input_data < 1 := by
  intro sgm_scale model input_data
  have he : 0 < Real.exp (-(sgm_scale * model input_data)) := Real.exp_pos _
  constructor
  · exact div_pos one_pos (by linarith)
  · rw [policy_fn, sigmoid, div_lt_one (by linarith)]
    linarith

/-- C5: a call to `sampler` invokes exactly one dataset regeneration
(`update_policydataset`) when the `epoch_used` counter it observes (the
counter of the dataset state after the batch draw — the value the `if` on
line 197 reads) strictly exceeds `epoch_resample`, and none otherwise; the
regeneration happens before the call returns (the returned dataset is the
regenerated one) while the returned batch is the one drawn at the start of
the call.  If the external `next_batch` leaves `epoch_used` unchanged, the
same dichotomy holds for the counter at call entry. -/
theorem C5_sampler_refresh {B D S : Type} :
    ∀ (next_batch : PolicyDataset B → ℕ → PolicyDataset B × D)
      (simul_shocks : ℕ → ℕ → D → S × S)
      (update_pds : PolicyDataset B → PolicyDataset B)
      (t_unroll epoch_resample : ℕ) (pds : PolicyDataset B) (batch_size : ℕ),
      (epoch_resample < (next_batch pds batch_size).1.epoch_used →
        (sampler next_batch simul_shocks update_pds t_unroll epoch_resample pds batch_size).2.2 = 1 ∧
        (sampler next_batch simul_shocks update_pds t_unroll epoch_resample pds batch_size).1 =
          update_pds (next_batch pds batch_size).1) ∧
      (¬ epoch_resample < (next_batch pds batch_size).1.epoch_used →
        (sampler next_batch simul_shocks update_pds t_unroll epoch_resample pds batch_size).2.2 = 0 ∧
        (sampler next_batch simul_shocks update_pds t_unroll epoch_resample pds batch_size).1 =
          (next_batch pds batch_size).1) ∧
      ((next_batch pds batch_size).1.epoch_used = pds.epoch_used →
        ((epoch_resample < pds.epoch_used →
          (sampler next_batch simul_shocks update_pds t_unroll epoch_resample pds batch_size).2.2 = 1) ∧
         (¬ epoch_resample < pds.epoch_used →
          (sampler next_batch simul_shocks update_pds t_unroll epoch_resample pds batch_size).2.2 = 0))) ∧
      (sampler next_batch simul_shocks update_pds t_unroll epoch_resample pds batch_size).2.1.1 =
        (next_batch pds batch_size).2 := by
  intro next_batch simul_shocks update_pds t_unroll epoch_resample pds batch_size
  refine ⟨fun h => ?_, fun h => ?_, fun hpres => ⟨fun h => ?_, fun h => ?_⟩, ?_⟩ <;>
    simp only [sampler] <;> first
      | (rw [if_pos (by omega)]; exact ⟨rfl, rfl⟩)
      | (rw [if_neg (by omega)]; exact ⟨rfl, rfl⟩)
      | (rw [if_pos (by omega)])
      | (rw [if_neg (by omega)])
      | (split <;> rfl)

/-- Witness for `C5_sampler_refresh`: with a trivial dataset/batch/shock
instantiation and `epoch_used = 5 > 0 = epoch_resample`, exactly one
regeneration is invoked, and with `epoch_resample = 9` none is. -/
theorem C5_sampler_refresh_witness :
    (sampler (fun ds _ => (ds, ds.data)) (fun _ _ _ => ((), ())) id 3 0
       (PolicyDataset.mk 5 (0 : ℕ)) 2).2.2 = 1 ∧
    (sampler (fun ds _ => (ds, ds.data)) (fun _ _ _ => ((), ())) id 3 9
       (PolicyDataset.mk 5 (0 : ℕ)) 2).2.2 = 0 :=
  ⟨((C5_sampler_refresh (fun ds _ => (ds, ds.data)) (fun _ _ _ => ((), ())) id 3 0
      (PolicyDataset.mk 5 (0 : ℕ)) 2).1 (by decide)).1,
   (((C5_sampler_refresh (fun ds _ => (ds, ds.data)) (fun _ _ _ => ((), ())) id 3 9
      (PolicyDataset.mk 5 (0 : ℕ)) 2).2.1) (by decide)).1⟩

/-- C8: `train` requires `batch_size ≤ valid_size`; a violating call fails
with the `AssertionError` before the training loop produces any event (the
error result carries no trace at all), and a conforming call runs the loop. -/
theorem C8_train_precondition :
    ∀ (valid_size : ℕ) (value_sampling : String)
      (freq_update_v freq_valid num_step batch_size : ℕ),
      (valid_size < batch_size →
        train valid_size value_sampling freq_update_v freq_valid num_step batch_size =
          Except.error "The valid size should be no smaller than batch_size.") ∧
      (batch_size ≤ valid_size →
        train valid_size value_sampling freq_update_v freq_valid num_step batch_size =
          Except.ok (train_trace value_sampling freq_update_v freq_valid num_step)) := by
  intro valid_size value_sampling freq_update_v freq_valid num_step batch_size
  constructor
  · intro h
    rw [train, if_neg (by omega)]
  · intro h
    rw [train, if_pos h]

/-- Witness for `C8_train_precondition`: `batch_size = 5 > 2 = valid_size`
aborts, `batch_size = 2 ≤ 2` runs. -/
theorem C8_train_precondition_witness :
    train 2 "nn" 10 4 8 5 =
      Except.error "The valid size should be no smaller than batch_size." ∧
    train 2 "nn" 10 4 8 2 = Except.ok (train_trace "nn" 10 4 8) :=
  ⟨(C8_train_precondition 2 "nn" 10 4 8 5).1 (by omega),
   (C8_train_precondition 2 "nn" 10 4 8 2).2 (by omega)⟩

/-- Helper: membership of a retraining event in one step's event list. -/
theorem retrain_mem_step_events (vs : String) (f m m' : ℕ) :
    TrainEvent.retrainValue m ∈ step_events vs f m' ↔
      (retrain_trigger vs f m' = true ∧ m = m') := by
  by_cases h : retrain_trigger vs f m' <;> simp [step_events, h]

/-- Helper: decomposition of a global step index into epoch and inner step. -/
theorem decomp_lt_mul {fv E m : ℕ} (hfv : 0 < fv) :
    (∃ e, e < E ∧ ∃ s, s < fv ∧ m = e * fv + s) ↔ m < E * fv := by
  constructor
  · rintro ⟨e, he, s, hs, rfl⟩
    have h1 : (e + 1) * fv ≤ E * fv := Nat.mul_le_mul_right _ (by omega)
    have h2 : (e + 1) * fv = e * fv + fv := by ring
    linarith
  · intro h
    exact ⟨m / fv, (Nat.div_lt_iff_lt_mul hfv).mpr h, m % fv, Nat.mod_lt _ hfv,
      (Nat.div_add_mod' m fv).symm⟩

/-- Helper: a retraining event for step `m` appears in the training trace iff
`m` decomposes as `epoch·freq_valid + step` within the loop bounds and the
line-158 condition fires at `m`. -/
theorem retrain_mem_train_trace (vs : String) (f fv ns m : ℕ) :
    TrainEvent.retrainValue m ∈ train_trace vs f fv ns ↔
      (∃ e, e < ns / fv ∧ ∃ s, s < fv ∧ m = e * fv + s) ∧ retrain_trigger vs f m = true := by
  simp only [train_trace, List.mem_flatMap, List.mem_append, List.mem_range,
    retrain_mem_step_events, List.mem_singleton]
  constructor
  · rintro ⟨e, he, ⟨s, hs, htr, rfl⟩ | hbad⟩
    · exact ⟨⟨e, he, s, hs, rfl⟩, htr⟩
    · cases hbad
  · rintro ⟨⟨e, he, s, hs, rfl⟩, htr⟩
    exact ⟨e, he, Or.inl ⟨s, hs, htr, rfl⟩⟩

/-- Helper: the retraining condition in propositional form. -/
theorem retrain_trigger_iff (vs : String) (f m : ℕ) :
    retrain_trigger vs f m = true ↔ (vs ≠ "bchmk" ∧ m % f = 0 ∧ 0 < m) := by
  simp [retrain_trigger, Nat.pos_iff_ne_zero, and_assoc]

/-- C9: during `train`, value retraining never fires at global step 0; it
fires at step `m` exactly when `value_sampling ≠ "bchmk"`, `m` is a multiple
of `freq_update_v`, and `m > 0` (and `m` lies within the loop); consequently
the earliest possible retraining step is `freq_update_v` itself, which does
fire when it lies within the loop. -/
theorem C9_retrain_cadence :
    (∀ (vs : String) (f fv ns : ℕ), TrainEvent.retrainValue 0 ∉ train_trace vs f fv ns) ∧
    (∀ (vs : String) (f fv ns m : ℕ), 0 < fv →
      (TrainEvent.retrainValue m ∈ train_trace vs f fv ns ↔
        (m < ns / fv * fv ∧ vs ≠ "bchmk" ∧ m % f = 0 ∧ 0 < m))) ∧
    (∀ (vs : String) (f fv ns m : ℕ), 0 < f →
      TrainEvent.retrainValue m ∈ train_trace vs f fv ns → f ≤ m) ∧
    (∀ (vs : String) (f fv ns : ℕ), vs ≠ "bchmk" → 0 < f → 0 < fv →
      f < ns / fv * fv → TrainEvent.retrainValue f ∈ train_trace vs f fv ns) := by
  refine ⟨?_, ?_, ?_, ?_⟩
  · intro vs f fv ns h
    have h2 := ((retrain_mem_train_trace vs f fv ns 0).mp h).2
    simp [retrain_trigger] at h2
  · intro vs f fv ns m hfv
    rw [retrain_mem_train_trace, decomp_lt_mul hfv, retrain_trigger_iff]
  · intro vs f fv ns m hf hm
    have h2 := ((retrain_mem_train_trace vs f fv ns m).mp hm).2
    rw [retrain_trigger_iff] at h2
    exact Nat.le_of_dvd h2.2.2 (Nat.dvd_of_mod_eq_zero h2.2.1)
  · intro vs f fv ns hvs hf hfv hlt
    rw [retrain_mem_train_trace, retrain_trigger_iff]
    exact ⟨(decomp_lt_mul hfv).mpr hlt, hvs, Nat.mod_self f, hf⟩

/-- Witness for `C9_retrain_cadence` with `freq_update_v = 2`,
`freq_valid = 3`, `num_step = 9`. -/
theorem C9_retrain_cadence_witness :
    (TrainEvent.retrainValue 2 ∈ train_trace "nn" 2 3 9 ↔
      (2 < 9 / 3 * 3 ∧ ("nn" : String) ≠ "bchmk" ∧ 2 % 2 = 0 ∧ 0 < 2)) ∧
    2 ≤ 4 ∧
    TrainEvent.retrainValue 2 ∈ train_trace "nn" 2 3 9 :=
  ⟨C9_retrain_cadence.2.1 "nn" 2 3 9 2 (by omega),
   C9_retrain_cadence.2.2.1 "nn" 2 3 9 4 (by omega) (by decide),
   C9_retrain_cadence.2.2.2 "nn" 2 3 9 (by decide) (by omega) (by omega) (by omega)⟩

/-- C4: in the JFV recursion the aggregate continuation state `N` is at
least `0.01` after every period's update (`tf.maximum(..., 0.01)`), for every
combination of parameters, opaque power primitive, shock paths (hence drift
and diffusion values) and horizon with at least one non-terminal period. -/
theorem C4_N_floor {p n : ℕ} :
    ∀ (mp : JFVParam) (fpow : ℚ → ℚ → ℚ)
      (vval : (Fin p → Fin (n+1) → ℚ) → (Fin p → ℚ) → (Fin p → Fin (n+1) → ℚ) →
        Fin p → Fin (n+1) → ℚ)
      (T : ℕ) (sh : ℕ → Fin p → Fin (n+1) → ℚ) (ashock : ℕ → Fin p → ℚ)
      (ishock : ℕ → Fin p → Fin (n+1) → ℚ) (k0 : Fin p → Fin (n+1) → ℚ)
      (N0 : Fin p → ℚ) (q : Fin p), 2 ≤ T →
      1/100 ≤ (JFV_run mp fpow vval T sh ashock ishock k0 N0).N q := by
  intro mp fpow vval T sh ashock ishock k0 N0 q hT
  obtain ⟨m, rfl⟩ : ∃ m, T = m + 2 := ⟨T - 2, by omega⟩
  have hrange : List.range (m + 2) = List.range m ++ [m, m + 1] := by
    rw [List.range_succ, List.range_succ, List.append_assoc]
    rfl
  rw [JFV_run, hrange, List.foldl_append, List.foldl_cons, List.foldl_cons, List.foldl_nil]
  rw [JFV_iter, if_pos (show m + 1 = m + 2 - 1 by omega)]
  rw [JFV_iter, if_neg (show ¬ (m = m + 2 - 1) by omega)]
  simp only [JFV_terminal, JFV_step]
  exact le_max_right _ _

/-- Witness for `C4_N_floor` at a concrete two-period instance. -/
theorem C4_N_floor_witness :
    1/100 ≤ (JFV_run mpJFV1 fpowOne vvalKS0 2 shHalf aOne ishZero kOne (fun _ => 1)).N 0 :=
  C4_N_floor mpJFV1 fpowOne vvalKS0 2 shHalf aOne ishZero kOne (fun _ => 1) 0 (by omega)

/-- Helper: one spec-side step from a `dt`-scaled running sum agrees with one
code-side step up to the same `dt` scaling, with identical capital and `N`. -/
theorem JFV_step_rel {p n : ℕ} (mp : JFVParam) (fpow : ℚ → ℚ → ℚ)
    (sh : Fin p → Fin (n+1) → ℚ) (a : Fin p → ℚ) (ish : Fin p → Fin (n+1) → ℚ)
    (t : ℕ) (s s' : JFVState p n)
    (hk : s'.k_cross = s.k_cross) (hN : s'.N = s.N)
    (hu : ∀ q i, s'.util_sum q i = mp.dt * s.util_sum q i) :
    (JFV_step_dtEach mp fpow sh a ish t s').k_cross = (JFV_step mp fpow sh a ish t s).k_cross ∧
    (JFV_step_dtEach mp fpow sh a ish t s').N = (JFV_step mp fpow sh a ish t s).N ∧
    ∀ q i, (JFV_step_dtEach mp fpow sh a ish t s').util_sum q i =
      mp.dt * (JFV_step mp fpow sh a ish t s).util_sum q i := by
  refine ⟨?_, ?_, fun q i => ?_⟩ <;> simp only [JFV_step, JFV_step_dtEach, hk, hN]
  rw [hu q i]
  ring

/-- Helper: at the terminal period the one-shot `dt` rescaling of the code
meets the spec-side accumulation: the final states coincide. -/
theorem JFV_terminal_rel {p n : ℕ} (mp : JFVParam)
    (vval : (Fin p → Fin (n+1) → ℚ) → (Fin p → ℚ) → (Fin p → Fin (n+1) → ℚ) →
      Fin p → Fin (n+1) → ℚ)
    (ish : Fin p → Fin (n+1) → ℚ) (t : ℕ) (s s' : JFVState p n)
    (hk : s'.k_cross = s.k_cross) (hN : s'.N = s.N)
    (hu : ∀ q i, s'.util_sum q i = mp.dt * s.util_sum q i) :
    JFV_terminal_dtEach mp vval ish t s' = JFV_terminal mp vval ish t s := by
  simp only [JFV_terminal, JFV_terminal_dtEach, hk, hN, JFVState.mk.injEq, true_and]
  funext q i
  rw [hu q i]
  ring

/-- Helper: the `dt`-scaling relation is preserved along any list of
non-terminal periods. -/
theorem JFV_fold_rel {p n : ℕ} (mp : JFVParam) (fpow : ℚ → ℚ → ℚ)
    (vval : (Fin p → Fin (n+1) → ℚ) → (Fin p → ℚ) → (Fin p → Fin (n+1) → ℚ) →
      Fin p → Fin (n+1) → ℚ)
    (T : ℕ) (sh : ℕ → Fin p → Fin (n+1) → ℚ) (ashock : ℕ → Fin p → ℚ)
    (ishock : ℕ → Fin p → Fin (n+1) → ℚ) (l : List ℕ) :
    ∀ (s s' : JFVState p n), (∀ t ∈ l, t ≠ T - 1) →
      s'.k_cross = s.k_cross → s'.N = s.N →
      (∀ q i, s'.util_sum q i = mp.dt * s.util_sum q i) →
      (List.foldl (JFV_iter_dtEach mp fpow vval T sh ashock ishock) s' l).k_cross =
        (List.foldl (JFV_iter mp fpow vval T sh ashock ishock) s l).k_cross ∧
      (List.foldl (JFV_iter_dtEach mp fpow vval T sh ashock ishock) s' l).N =
        (List.foldl (JFV_iter mp fpow vval T sh ashock ishock) s l).N ∧
      ∀ q i, (List.foldl (JFV_iter_dtEach mp fpow vval T sh ashock ishock) s' l).util_sum q i =
        mp.dt * (List.foldl (JFV_iter mp fpow vval T sh ashock ishock) s l).util_sum q i := by
  induction l with
  | nil => intro s s' hl hk hN hu; exact ⟨hk, hN, hu⟩
  | cons t l ih =>
    intro s s' hl hk hN hu
    simp only [List.foldl_cons]
    have ht : t ≠ T - 1 := hl t (List.mem_cons_self t l)
    rw [JFV_iter, if_neg ht, JFV_iter_dtEach, if_neg ht]
    obtain ⟨h1, h2, h3⟩ := JFV_step_rel mp fpow (sh t) (ashock t) (ishock t) t s s' hk hN hu
    exact ih _ _ (fun u hu2 => hl u (List.mem_cons_of_mem t hu2)) h1 h2 h3

/-- Helper: the spec-side run and the code-side run produce the same final
state for every horizon. -/
theorem JFV_run_dtEach_eq_run {p n : ℕ} (mp : JFVParam) (fpow : ℚ → ℚ → ℚ)
    (vval : (Fin p → Fin (n+1) → ℚ) → (Fin p → ℚ) → (Fin p → Fin (n+1) → ℚ) →
      Fin p → Fin (n+1) → ℚ)
    (T : ℕ) (sh : ℕ → Fin p → Fin (n+1) → ℚ) (ashock : ℕ → Fin p → ℚ)
    (ishock : ℕ → Fin p → Fin (n+1) → ℚ) (k0 : Fin p → Fin (n+1) → ℚ)
    (N0 : Fin p → ℚ) :
    JFV_run_dtEach mp fpow vval T sh ashock ishock k0 N0 =
      JFV_run mp fpow vval T sh ashock ishock k0 N0 := by
  cases T with
  | zero => rfl
  | succ m =>
    rw [JFV_run, JFV_run_dtEach, List.range_succ, List.foldl_append, List.foldl_append,
      List.foldl_cons, List.foldl_cons, List.foldl_nil, List.foldl_nil]
    obtain ⟨h1, h2, h3⟩ := JFV_fold_rel mp fpow vval (m+1) sh ashock ishock (List.range m)
      ⟨k0, N0, fun _ _ => 0⟩ ⟨k0, N0, fun _ _ => 0⟩
      (fun t ht => by simp only [List.mem_range] at ht; omega)
      rfl rfl (fun q i => (mul_zero mp.dt).symm)
    rw [JFV_iter, if_pos (show m = m + 1 - 1 by omega),
      JFV_iter_dtEach, if_pos (show m = m + 1 - 1 by omega)]
    exact JFV_terminal_rel mp vval (ishock m) m _ _ h1 h2 h3

/-- C6: the JFV loss, which rescales the running utility sum by `dt` once at
the terminal period (`util_sum = util_sum*dt + discount[t]*value`), returns
exactly the same output dictionary as the spec-side variant that accumulates
`dt·β^t·(1 - 1/c_t)` period by period and then adds `β^(T-1)` times the
averaged terminal value — for every parameterization, horizon, batch and
optimization type. -/
theorem C6_jfv_dt_scaling {p n : ℕ} :
    ∀ (mp : JFVParam) (fpow : ℚ → ℚ → ℚ)
      (vval : (Fin p → Fin (n+1) → ℚ) → (Fin p → ℚ) → (Fin p → Fin (n+1) → ℚ) →
        Fin p → Fin (n+1) → ℚ)
      (T : ℕ) (game : Bool) (c cD : ℕ → Fin p → Fin (n+1) → ℚ)
      (ashock : ℕ → Fin p → ℚ) (ishock : ℕ → Fin p → Fin (n+1) → ℚ)
      (k0 : Fin p → Fin (n+1) → ℚ) (N0 : Fin p → ℚ),
      JFV_loss_dtEach mp fpow vval T game c cD ashock ishock k0 N0 =
        JFV_loss mp fpow vval T game c cD ashock ishock k0 N0 := by
  intro mp fpow vval T game c cD ashock ishock k0 N0
  rw [JFV_loss, JFV_loss_dtEach, JFV_run_dtEach_eq_run]

/-- Helper: updating the attached view of a non-zero-index agent's share does
not change the effective shares under the "game" rewiring. -/
theorem effShare_update {p n : ℕ} (c cD : ℕ → Fin p → Fin (n+1) → ℚ) (t0 : ℕ)
    (q0 : Fin p) (i0 : Fin (n+1)) (x : ℚ) (hi : i0.val ≠ 0) :
    (fun t => effShare true ((update_share c t0 q0 i0 x) t) (cD t)) =
    (fun t => effShare true (c t) (cD t)) := by
  funext t q i
  simp only [effShare, if_true]
  by_cases hqi : i.val = 0
  · have hne : i ≠ i0 := by
      intro h
      exact hi (by rw [← h]; exact hqi)
    simp [hqi, update_share, hne]
  · simp [hqi]

/-- C3: under `opt_type = "game"`, every variant's loss output `m_util` is
invariant under an arbitrary change of the (gradient-carrying view of the)
consumption-share output of any agent with index ≥ 1 at any period — the
stop-gradient branch carries no dependence, so the gradient with respect to
those outputs is identically zero — while at a generic concrete input a
change of agent 0's share output changes `m_util` (nonzero gradient). -/
theorem C3_stop_gradient :
    (∀ (p n : ℕ) (mp : KSParam) (fpow : ℚ → ℚ → ℚ) (lg : ℚ → ℚ)
       (vval : (Fin p → Fin (n+1) → ℚ) → (Fin p → ℚ) → (Fin p → Fin (n+1) → ℚ) →
         Fin p → Fin (n+1) → ℚ)
       (T : ℕ) (c cD : ℕ → Fin p → Fin (n+1) → ℚ) (ashock : ℕ → Fin p → ℚ)
       (ishock : ℕ → Fin p → Fin (n+1) → ℚ) (k0 : Fin p → Fin (n+1) → ℚ)
       (t0 : ℕ) (q0 : Fin p) (i0 : Fin (n+1)) (x : ℚ), i0.val ≠ 0 →
       KS_loss mp fpow lg vval T true (update_share c t0 q0 i0 x) cD ashock ishock k0 =
         KS_loss mp fpow lg vval T true c cD ashock ishock k0) ∧
    (∀ (p n : ℕ) (mp : DavilaParam) (fpow : ℚ → ℚ → ℚ) (log_10 : ℚ)
       (tgrad : ℕ → (Fin p → Fin (n+1) → ℚ) → (Fin p → Fin (n+1) → ℚ) →
         Fin p → Fin (n+1) → ℚ)
       (vval : (Fin p → Fin (n+1) → ℚ) → (Fin p → Fin (n+1) → ℚ) →
         Fin p → Fin (n+1) → ℚ)
       (T : ℕ) (c cD : ℕ → Fin p → Fin (n+1) → ℚ)
       (ishock : ℕ → Fin p → Fin (n+1) → ℚ) (k0 : Fin p → Fin (n+1) → ℚ)
       (t0 : ℕ) (q0 : Fin p) (i0 : Fin (n+1)) (x : ℚ), i0.val ≠ 0 →
       Davila_loss mp fpow log_10 tgrad vval T true (update_share c t0 q0 i0 x) cD ishock k0 =
         Davila_loss mp fpow log_10 tgrad vval T true c cD ishock k0) ∧
    (∀ (p n : ℕ) (mp : DavilaASParam) (fpow : ℚ → ℚ → ℚ)
       (vval : (Fin p → Fin (n+1) → ℚ) → (Fin p → ℚ) → (Fin p → Fin (n+1) → ℚ) →
         Fin p → Fin (n+1) → ℚ)
       (T : ℕ) (c cD : ℕ → Fin p → Fin (n+1) → ℚ) (ashock : ℕ → Fin p → ℚ)
       (ishock : ℕ → Fin p → Fin (n+1) → ℚ) (k0 : Fin p → Fin (n+1) → ℚ)
       (t0 : ℕ) (q0 : Fin p) (i0 : Fin (n+1)) (x : ℚ), i0.val ≠ 0 →
       DavilaAS_loss mp fpow vval T true (update_share c t0 q0 i0 x) cD ashock ishock k0 =
         DavilaAS_loss mp fpow vval T true c cD ashock ishock k0) ∧
    (∀ (p n : ℕ) (mp : JFVParam) (fpow : ℚ → ℚ → ℚ)
       (vval : (Fin p → Fin (n+1) → ℚ) → (Fin p → ℚ) → (Fin p → Fin (n+1) → ℚ) →
         Fin p → Fin (n+1) → ℚ)
       (T : ℕ) (c cD : ℕ → Fin p → Fin (n+1) → ℚ) (ashock : ℕ → Fin p → ℚ)
       (ishock : ℕ → Fin p → Fin (n+1) → ℚ) (k0 : Fin p → Fin (n+1) → ℚ)
       (N0 : Fin p → ℚ) (t0 : ℕ) (q0 : Fin p) (i0 : Fin (n+1)) (x : ℚ), i0.val ≠ 0 →
       JFV_loss mp fpow vval T true (update_share c t0 q0 i0 x) cD ashock ishock k0 N0 =
         JFV_loss mp fpow vval T true c cD ashock ishock k0 N0) ∧
    ((DavilaAS_loss mpAS1 fpowOne vvalKS0 2 true
        (update_share shHalf 0 0 0 (1/4)) shHalf aOne ishZero kOne).m_util ≠
      (DavilaAS_loss mpAS1 fpowOne vvalKS0 2 true shHalf shHalf aOne ishZero kOne).m_util) := by
  refine ⟨?_, ?_, ?_, ?_, ?_⟩
  · intro p n mp fpow lg vval T c cD ashock ishock k0 t0 q0 i0 x hi
    simp only [KS_loss]
    rw [effShare_update c cD t0 q0 i0 x hi]
  · intro p n mp fpow log_10 tgrad vval T c cD ishock k0 t0 q0 i0 x hi
    simp only [Davila_loss]
    rw [effShare_update c cD t0 q0 i0 x hi]
  · intro p n mp fpow vval T c cD ashock ishock k0 t0 q0 i0 x hi
    simp only [DavilaAS_loss]
    rw [effShare_update c cD t0 q0 i0 x hi]
  · intro p n mp fpow vval T c cD ashock ishock k0 N0 t0 q0 i0 x hi
    simp only [JFV_loss]
    rw [effShare_update c cD t0 q0 i0 x hi]
  · norm_num [DavilaAS_loss, DavilaAS_run, DavilaAS_iter, DavilaAS_step, DavilaAS_terminal,
      DavilaAS_csmp, DavilaAS_k_next, clip_by_value, discount, mean1, mean2, k_mean_of, effShare,
      update_share, eps_weight, mpAS1, fpowOne, vvalKS0, shHalf, aOne, ishZero, kOne,
      List.range_succ, Fin.sum_univ_two, Fin.sum_univ_one, EPSILON, min_def, max_def]

/-- Witness for `C3_stop_gradient`: perturbing agent 1's share at period 0
leaves the concrete KS game loss unchanged. -/
theorem C3_stop_gradient_witness :
    KS_loss mpKS1 fpowZero lgZero vvalKS0 2 true
        (update_share shHalf 0 0 1 (9/10)) shHalf aOne ishZero kOne =
      KS_loss mpKS1 fpowZero lgZero vvalKS0 2 true shHalf shHalf aOne ishZero kOne :=
  C3_stop_gradient.1 1 1 mpKS1 fpowZero lgZero vvalKS0 2 shHalf shHalf aOne ishZero kOne
    0 0 1 (9/10) (by decide)

end DeepHAM
